import Mathlib

/-!
Shallow embedding of the release-matching and PR-to-release mapping engine of
the athenian-api analytics pipeline
(server/athenian/api/controllers/miners/github/release.py), together with the
flow-ratio metric calculator
(server/athenian/api/controllers/features/github/pull_request_metrics.py) and
the contributors miner (server/athenian/api/controllers/miners/github/contributors.py).

Conventions of the embedding:
- timestamps are UTC instants modelled as integers (seconds since epoch);
- SQL tables of the Metadata Store are lists of rows; nullable columns are
  Option-valued; SQL BETWEEN is inclusive on both ends, as in the source;
- pandas data frames are lists of structures, frame order is list order;
- regular-expression matching (re.compile + pandas str.match) is kept abstract:
  a parameter rematch : String -> String -> Bool receives the pattern text and
  the candidate string; the pattern manipulation (anchoring, default-branch
  substitution) is embedded concretely;
- async database calls are embedded as pure functions of the database value;
  where a claim is about which storage operations are performed, the function
  additionally returns a trace of effects.
-/

/-- Modelled from the spec: settings.Match, the IntEnum of release-matching
kinds (tag | branch | tag_or_branch), lives in controllers/settings.py which is
not among the provided sources.  IntEnum members are ints, so the match kind is
embedded as Int with three designated constants; the numeric values are
immaterial to every claim, only their distinctness is used. -/
def Match.branch : Int := 0

/-- Match kind constant: tag. -/
def Match.tag : Int := 1

/-- Match kind constant: tag_or_branch. -/
def Match.tag_or_branch : Int := 2

/-- Modelled from the spec: settings.ReleaseMatchSetting (controllers/settings.py,
not among the provided sources): the per-repository release-matching rule
(tags regex, branches regex, match kind).  The Python attribute name of the
third field is "match", a reserved word here, hence matchKind. -/
structure ReleaseMatchSetting where
  tags : String
  branches : String
  matchKind : Int
deriving Repr, DecidableEq

/-- Modelled from the spec: PREFIXES["github"], the service prefix prepended to
repository names in settings keys (models/metadata/__init__.py, not among the
provided sources). -/
def githubPrefix : String := "github.com/"

/-- Modelled from the spec: the default-branch placeholder token
settings.default_branch_alias substituted in branch regexes. -/
def default_branch_alias : String := "\x7b\x7bdefault\x7d\x7d"

/-- Row of the metadata Release table (models/metadata/github.py): id, author,
name, published_at, tag, url, sha, commit_id, repository_full_name.
commit_id and tag are nullable; published_at is modelled as total because every
query filters it with BETWEEN, which drops NULLs. -/
structure ReleaseRow where
  id : String
  author : Option String
  name : Option String
  published_at : Int
  tag : Option String
  url : Option String
  sha : String
  commit_id : Option String
  repository_full_name : String
deriving Repr, DecidableEq

/-- Row of the metadata Branch table (models/metadata/github.py). -/
structure BranchRow where
  repository_full_name : String
  branch_name : String
  is_default : Bool
  commit_id : String
  commit_sha : String
  commit_date : Int
deriving Repr, DecidableEq

/-- Row of the metadata PushCommit table (models/metadata/github.py).
commit_date is the raw textual date column; committed_date the timestamp. -/
structure PushCommitRow where
  node_id : String
  sha : String
  repository_full_name : String
  url : Option String
  author_login : Option String
  committer_login : Option String
  committer_name : Option String
  committer_email : Option String
  commit_date : String
  committed_date : Int
deriving Repr, DecidableEq

/-- Row of the metadata PullRequest table (models/metadata/github.py); the
columns used by the embedded queries.  hidden is modelled as Bool (NULL hidden
is not exercised by the claims). -/
structure PRRow where
  node_id : String
  repository_full_name : String
  number : Int
  user_login : Option String
  merged_by_login : Option String
  created_at : Int
  updated_at : Int
  closed_at : Option Int
  merged_at : Option Int
  merge_commit_id : Option String
  merge_commit_sha : Option String
  base_ref : String
  head_ref : String
  hidden : Bool
deriving Repr, DecidableEq

/-- Row of github_node_commit_parents (git-reversed parent/child, index 0 is
the first-parent edge). -/
structure CommitParentRow where
  parent_id : String
  child_id : String
  index : Nat
deriving Repr, DecidableEq

/-- Row of github_node_commit: node id and committed date (the two columns the
first-parents query reads). -/
structure NodeCommitRow where
  id : String
  committed_date : Int
deriving Repr, DecidableEq

/-- The read-only Metadata Store, as the tables used by the embedded queries. -/
structure MetadataDB where
  releases : List ReleaseRow
  branches : List BranchRow
  commits : List PushCommitRow
  prs : List PRRow
  commit_parents : List CommitParentRow
  node_commits : List NodeCommitRow
deriving Repr, DecidableEq

/-- Lookup of settings[key]; a missing key raises KeyError in the source, which
no claim exercises, so the embedding falls back to an inert default. -/
def settingOf (settings : List (String × ReleaseMatchSetting)) (key : String) :
    ReleaseMatchSetting :=
  (settings.lookup key).getD ⟨"", "", Match.branch⟩

/-- The tag-regex anchoring of _match_releases_by_tag (release.py:151-152) and
the branch-regex anchoring of _match_releases_by_branch (release.py:183-184):
append a trailing dollar when absent. -/
def anchorRegex (regexp : String) : String :=
  if regexp.endsWith "$" then regexp else regexp ++ "$"

/-- Insertion into a sorted list; the sort routine of the embedding.  The SQL
and pandas sorts of the source leave the relative order of equal keys
unspecified, so any comparison sort is a faithful model; insertion sort is
chosen because it reduces by structural recursion. -/
def insertBy {α : Type} (le : α → α → Bool) (x : α) : List α → List α
  | [] => [x]
  | y :: ys => if le x y then x :: y :: ys else y :: insertBy le x ys

/-- Insertion sort by the given comparison. -/
def sortBy {α : Type} (le : α → α → Bool) : List α → List α
  | [] => []
  | x :: xs => insertBy le x (sortBy le xs)

/-- ORDER BY published_at DESC of the tag query (release.py:137). -/
def sortReleasesDesc (rows : List ReleaseRow) : List ReleaseRow :=
  sortBy (fun a b => decide (b.published_at ≤ a.published_at)) rows

/-- releases[~releases.index.duplicated(keep="first")] (release.py:139): drop
all but the first occurrence of each (repository, tag) index key. -/
def dedupFirst : List ReleaseRow → List (String × Option String) → List ReleaseRow
  | [], _ => []
  | r :: rs, seen =>
    if (r.repository_full_name, r.tag) ∈ seen then dedupFirst rs seen
    else r :: dedupFirst rs ((r.repository_full_name, r.tag) :: seen)

/-- The SQL fetch of _match_releases_by_tag (release.py:132-139): Release rows
with published_at BETWEEN time_from AND time_to, repository in repos and
non-null commit_id, newest first, first occurrence per (repository, tag). -/
def tagCandidates (repos : List String) (time_from time_to : Int)
    (dbReleases : List ReleaseRow) : List ReleaseRow :=
  dedupFirst
    (sortReleasesDesc (dbReleases.filter fun r =>
      (time_from ≤ r.published_at && r.published_at ≤ time_to) &&
      repos.contains r.repository_full_name && r.commit_id.isSome))
    []

/-- Per-row outcome of repo_releases.index.str.match(regexp) (release.py:158)
with the per-repository anchored tag regex; a null tag never matches. -/
def tagMatchesRow (rematch : String → String → Bool)
    (settings : List (String × ReleaseMatchSetting)) (r : ReleaseRow) : Bool :=
  match r.tag with
  | some t =>
      rematch (anchorRegex (settingOf settings
        (githubPrefix ++ r.repository_full_name)).tags) t
  | none => false

/-- A release row of a matcher result frame: the Release columns plus the
matched_by column (release.py:32). -/
structure MatchedRelease where
  rel : ReleaseRow
  matched_by : Int
deriving Repr, DecidableEq

/-- Embedding of _match_releases_by_tag (release.py:125-164): fetch and dedup
the window's releases, keep per repository the rows whose tag matches the
anchored per-repo regex, mark them matched by tag. -/
def match_releases_by_tag (rematch : String → String → Bool)
    (repos : List String) (time_from time_to : Int)
    (settings : List (String × ReleaseMatchSetting))
    (dbReleases : List ReleaseRow) : List MatchedRelease :=
  let cands := tagCandidates repos time_from time_to dbReleases
  (repos.flatMap fun repo =>
      cands.filter fun r =>
        r.repository_full_name == repo && tagMatchesRow rematch settings r).map
    (fun r => ⟨r, Match.tag⟩)

/-- tag_by_branch_probe_lookaround (release.py:89): four weeks, in seconds. -/
def tag_by_branch_probe_lookaround : Int := 4 * 7 * 86400

/-- The probe query of _match_releases_by_tag_or_branch (release.py:100-107):
SELECT DISTINCT repository_full_name FROM release WHERE repository in repos AND
published_at BETWEEN time_from - lookaround AND time_to + lookaround. -/
def probeTagRepos (repos : List String) (time_from time_to : Int)
    (dbReleases : List ReleaseRow) : List String :=
  ((dbReleases.filter fun r =>
      repos.contains r.repository_full_name &&
      (time_from - tag_by_branch_probe_lookaround ≤ r.published_at &&
       r.published_at ≤ time_to + tag_by_branch_probe_lookaround)).map
    (fun r => r.repository_full_name)).dedup

/-- The split of _match_releases_by_tag_or_branch (release.py:108-116):
repositories found by the probe go to the tag matcher, the set difference goes
to the branch matcher. -/
def tagOrBranchPartition (repos : List String) (time_from time_to : Int)
    (dbReleases : List ReleaseRow) : List String × List String :=
  let repos_by_tag := probeTagRepos repos time_from time_to dbReleases
  (repos_by_tag, repos.filter fun repo => !repos_by_tag.contains repo)

/-- Embedding of _fetch_first_parents (release.py:481-533) restricted to the
reachable ids: follow the index = 0 edges of github_node_commit_parents from
commit_id (the table is git-reversed, so following parent_id to child_id walks
towards git parents).  Fuel bounds the recursion; the table length suffices
because each step consumes a distinct edge in an acyclic history. -/
def firstParentIds (parents : List CommitParentRow) : Nat → String → List String
  | 0, _ => []
  | fuel + 1, id =>
    match (parents.find? fun e => e.parent_id == id && e.index == 0).map
        (fun e => e.child_id) with
    | none => []
    | some c => c :: firstParentIds parents fuel c

/-- Result rows of _fetch_first_parents: the starting commit united with its
first-parent ancestors, each with the committed_date read from
github_node_commit; ids absent from github_node_commit yield NULL-dated rows
in the source, which never pass the subsequent date-window filter and are
dropped here. -/
def fetch_first_parents (db : MetadataDB) (commit_id : String) :
    List (String × Int) :=
  (commit_id :: firstParentIds db.commit_parents db.commit_parents.length commit_id).filterMap
    fun id => (db.node_commits.find? fun n => n.id == id).map
      fun n => (id, n.committed_date)

/-- Embedding of _fetch_merge_points (release.py:235-254): the first parents of
the branch head with committed_date in the half-open window, united with the
merge_commit_id of pull requests merged on base_ref == branch_name with
merged_at BETWEEN time_from AND time_to.  The source returns a set; the
embedding returns the deduplicated list.  Note: this query applies no filter on
the hidden column of pull_request. -/
def fetch_merge_points (db : MetadataDB) (repo : String) (commit_id : String)
    (branch_name : String) (time_from time_to : Int) : List String :=
  let mp := ((fetch_first_parents db commit_id).filter fun h =>
    time_from ≤ h.2 && h.2 < time_to).map (fun h => h.1)
  let prRows := db.prs.filter fun pr =>
    pr.repository_full_name == repo && pr.base_ref == branch_name &&
    (match pr.merged_at with
     | some m => time_from ≤ m && m ≤ time_to
     | none => false) &&
    pr.merge_commit_id.isSome
  (mp ++ prRows.filterMap fun pr => pr.merge_commit_id).dedup

/-- Per-commit author of _fetch_merge_commit_releases (release.py:272-275): the
Series.where keeps author_login on the rows where the committer is the GitHub
merge bot (committer_name "GitHub", committer_email "noreply@github.com") and
replaces it by committer_login on all other rows. -/
def mergeCommitAuthor (c : PushCommitRow) : Option String :=
  if c.committer_name == some "GitHub" && c.committer_email == some "noreply@github.com"
  then c.author_login
  else c.committer_login

/-- The commit fetch of _fetch_merge_commit_releases (release.py:268-271):
PushCommit rows with node_id among the merge points, ordered by the textual
commit_date column descending. -/
def mergePointCommits (db : MetadataDB) (merge_points : List String) :
    List PushCommitRow :=
  sortBy (fun a b => decide (b.commit_date ≤ a.commit_date))
    (db.commits.filter fun c => merge_points.contains c.node_id)

/-- Embedding of _fetch_merge_commit_releases (release.py:264-287): fabricate a
pseudo-release frame from the merge-point commits of a repository. -/
def fetch_merge_commit_releases (db : MetadataDB) (repo : String)
    (merge_points : List String) : List MatchedRelease :=
  (mergePointCommits db merge_points).map fun c =>
    { rel :=
        { id := c.node_id ++ "_" ++ repo
          author := mergeCommitAuthor c
          name := some c.sha
          published_at := c.committed_date
          tag := none
          url := c.url
          sha := c.sha
          commit_id := some c.node_id
          repository_full_name := repo }
      matched_by := Match.branch }

/-- Modelled from the spec: extract_branches (miners/github/branches.py, not
among the provided sources) returns the Branch rows of the given repositories
together with the per-repository default branch name. -/
def extractBranches (db : MetadataDB) (repos : List String) : List BranchRow :=
  db.branches.filter fun b => repos.contains b.repository_full_name

/-- Modelled from the spec: the default-branch name resolved by
extract_branches; falls back to master when no row is flagged default. -/
def defaultBranchOf (db : MetadataDB) (repo : String) : String :=
  ((db.branches.find? fun b => b.repository_full_name == repo && b.is_default).map
    (fun b => b.branch_name)).getD "master"

/-- The per-repository branch regex of _match_releases_by_branch
(release.py:180-184): substitute the default-branch alias, then anchor. -/
def branchRegexOf (db : MetadataDB) (settings : List (String × ReleaseMatchSetting))
    (repo : String) : String :=
  anchorRegex (((settingOf settings (githubPrefix ++ repo)).branches).replace
    default_branch_alias (defaultBranchOf db repo))

/-- The per-repository union of merge points of _match_releases_by_branch
(release.py:204-212): none when the repository has no matched branch, else the
repository together with the union of the merge points of its matched
branches. -/
def repoMergePoints (db : MetadataDB) (time_from time_to : Int)
    (bs : List BranchRow) (repo : String) : Option (String × List String) :=
  if bs.isEmpty then none
  else some (repo, (bs.flatMap fun b =>
    fetch_merge_points db repo b.commit_id b.branch_name time_from time_to).dedup)

/-- Embedding of _match_releases_by_branch (release.py:168-221): match branches
per repository with the substituted anchored regex (the groupby iterates
repositories in sorted order), collect the merge points of every matched
branch, union them per repository, and fabricate the pseudo-releases. -/
def match_releases_by_branch (rematch : String → String → Bool)
    (repos : List String) (time_from time_to : Int)
    (settings : List (String × ReleaseMatchSetting)) (db : MetadataDB) :
    List MatchedRelease :=
  let branches := extractBranches db repos
  let repoKeys := sortBy (fun a b => decide (a ≤ b))
    ((branches.map fun b => b.repository_full_name).dedup)
  let branches_matched := repoKeys.flatMap fun repo =>
    (branches.filter fun b => b.repository_full_name == repo).filter fun b =>
      rematch (branchRegexOf db settings repo) b.branch_name
  let merge_points_by_repo : List (String × List String) :=
    repoKeys.filterMap fun repo =>
      repoMergePoints db time_from time_to
        (branches_matched.filter fun b => b.repository_full_name == repo) repo
  merge_points_by_repo.flatMap fun rm => fetch_merge_commit_releases db rm.1 rm.2

/-- Embedding of _match_releases_by_tag_or_branch (release.py:93-121): probe,
split, and run each repository through exactly one of the two matchers. -/
def match_releases_by_tag_or_branch (rematch : String → String → Bool)
    (repos : List String) (time_from time_to : Int)
    (settings : List (String × ReleaseMatchSetting)) (db : MetadataDB) :
    List MatchedRelease :=
  let part := tagOrBranchPartition repos time_from time_to db.releases
  (if part.1.isEmpty then []
   else match_releases_by_tag rematch part.1 time_from time_to settings db.releases) ++
  (if part.2.isEmpty then []
   else match_releases_by_branch rematch part.2 time_from time_to settings db)

/-- Embedding of load_releases (release.py:35-81): partition the repositories
by the match kind of their setting (an if/elif/elif chain with no else branch:
any other kind is skipped), run the matchers, concatenate; with no matcher
invoked the result is the empty dummy frame. -/
def load_releases (rematch : String → String → Bool) (repos : List String)
    (time_from time_to : Int) (settings : List (String × ReleaseMatchSetting))
    (db : MetadataDB) : List MatchedRelease :=
  let repos_by_tag_only := repos.filter fun repo =>
    (settingOf settings (githubPrefix ++ repo)).matchKind == Match.tag
  let repos_by_tag_or_branch := repos.filter fun repo =>
    (settingOf settings (githubPrefix ++ repo)).matchKind == Match.tag_or_branch
  let repos_by_branch := repos.filter fun repo =>
    (settingOf settings (githubPrefix ++ repo)).matchKind == Match.branch
  (if repos_by_tag_only.isEmpty then []
   else match_releases_by_tag rematch repos_by_tag_only time_from time_to settings
     db.releases) ++
  (if repos_by_tag_or_branch.isEmpty then []
   else match_releases_by_tag_or_branch rematch repos_by_tag_or_branch time_from
     time_to settings db) ++
  (if repos_by_branch.isEmpty then []
   else match_releases_by_branch rematch repos_by_branch time_from time_to settings db)

/-- Minimum of a list of instants; pandas Series.min over the non-null values. -/
def listMin : List Int → Option Int
  | [] => none
  | x :: xs =>
    match listMin xs with
    | none => some x
    | some m => some (min x m)

/-- prs[PullRequest.merged_at.key].min() (release.py:307): the earliest
merged_at among the PRs, nulls skipped. -/
def minMergedAt (prs : List PRRow) : Option Int :=
  listMin (prs.filterMap fun pr => pr.merged_at)

/-- prs[PullRequest.repository_full_name.key].unique() (release.py:306). -/
def prRepos (prs : List PRRow) : List String :=
  (prs.map fun pr => pr.repository_full_name).dedup

/-- Embedding of _extract_matched_bys_from_releases (release.py:341-347): for
each repository the matched_by of the first frame row of that repository
(groupby with sort=False followed by head(1)). -/
def matchedByOf (releases : List MatchedRelease) (repo : String) : Option Int :=
  (releases.find? fun r => r.rel.repository_full_name == repo).map
    fun r => r.matched_by

/-- k.split("/", 1)[1] (release.py:323): drop the service prefix up to the
first slash from a settings key. -/
def stripServicePrefix (k : String) : String :=
  match k.splitOn "/" with
  | [] => k
  | _ :: rest => String.intercalate "/" rest

/-- The consistent rule set of map_prs_to_releases (release.py:318-324): every
setting keeps its regexes; its match kind becomes the matched_by extracted from
the new load for its repository, falling back to the configured kind when the
new load has no release for it. -/
def consistentSettings (settings : List (String × ReleaseMatchSetting))
    (releases_new : List MatchedRelease) : List (String × ReleaseMatchSetting) :=
  settings.map fun p =>
    (p.1, { tags := p.2.tags
            branches := p.2.branches
            matchKind := (matchedByOf releases_new (stripServicePrefix p.1)).getD
              p.2.matchKind })

/-- A row of the PR-to-release mapping frame built by _new_map_df
(release.py:353-361): index pull_request_node_id with the released
published_at, author, url, repository and matched_by columns. -/
structure MappedPR where
  pull_request_node_id : String
  published_at : Int
  author : Option String
  url : Option String
  repository_full_name : String
  matched_by : Int
deriving Repr, DecidableEq

/-- The per-PR release resolution of _map_prs_to_releases (release.py:404-426):
the owning release of the PR's merge commit, through the per-repository
history.  The history computed by _fetch_release_histories and the accelerated
update_history is kept abstract as a partial map from merge-commit sha to the
positional index of the owning release row (absent key and negative first item
both become none). -/
def mapPrsToReleasesRaw (prs : List PRRow) (releases : List MatchedRelease)
    (history : String → Option Nat) : List MappedPR :=
  prs.filterMap fun pr =>
    match pr.merge_commit_sha with
    | none => none
    | some sha =>
      match history sha with
      | none => none
      | some ri =>
        match releases[ri]? with
        | none => none
        | some r =>
          some { pull_request_node_id := pr.node_id
                 published_at := r.rel.published_at
                 author := r.rel.author
                 url := r.rel.url
                 repository_full_name := pr.repository_full_name
                 matched_by := r.matched_by }

/-- The released_at clamp of _map_prs_to_releases (release.py:428-430):
np.maximum of the mapped published_at column and the merged_at of the PR with
the same node id. -/
def clampReleasedAt (prs : List PRRow) (rows : List MappedPR) : List MappedPR :=
  rows.map fun row =>
    match (prs.find? fun pr =>
        pr.node_id == row.pull_request_node_id).bind (fun pr => pr.merged_at) with
    | none => row
    | some m => { row with published_at := max row.published_at m }

/-- Embedding of _map_prs_to_releases (release.py:396-431): resolve each PR's
owning release, then clamp released_at. -/
def map_prs_to_releases_core (prs : List PRRow) (releases : List MatchedRelease)
    (history : String → Option Nat) : List MappedPR :=
  clampReleasedAt prs (mapPrsToReleasesRaw prs releases history)

/-- One release load performed by map_prs_to_releases: the window bounds and
the settings passed to load_releases. -/
structure LoadCall where
  time_from : Int
  time_to : Int
  settings : List (String × ReleaseMatchSetting)
deriving Repr, DecidableEq

/-- A storage access performed by map_prs_to_releases, in program order: a
load_releases call against the Metadata Store, the shared-cache multi-get of
previously mapped PRs, the Metadata/Precomputed Store work of
_map_prs_to_releases, and the shared-cache write of the fresh mappings. -/
inductive StorageEffect where
  | loadRel (call : LoadCall)
  | cacheMultiGet
  | mapQuery
  | cacheSet
deriving Repr, DecidableEq

/-- The load_releases calls among a trace of storage effects. -/
def loadsOf (effects : List StorageEffect) : List LoadCall :=
  effects.filterMap fun e =>
    match e with
    | .loadRel c => some c
    | _ => none

/-- Embedding of map_prs_to_releases (release.py:290-338).  An empty PR frame
returns the empty mapping before any storage access.  Otherwise earliest_merge
is the minimal merged_at minus one minute; when it does not reach time_from the
releases are loaded in one batch over (earliest_merge, time_to), else in two
batches: the new one over (time_from, time_to) with the caller's settings and
the old one over (earliest_merge, time_from) with the consistent settings
derived from the new batch.  The cache read result is appended to a frame
without assignment in the source (pandas append is not in place), so the
mapping is always recomputed by _map_prs_to_releases; the function returns the
mapping together with the trace of storage accesses.  PRs of the mapped frame
always carry merged_at; the all-null merged_at frame is not modelled. -/
def map_prs_to_releases (rematch : String → String → Bool) (hasCache : Bool)
    (prs : List PRRow) (time_from time_to : Int)
    (settings : List (String × ReleaseMatchSetting)) (db : MetadataDB)
    (history : String → Option Nat) : List MappedPR × List StorageEffect :=
  if prs.isEmpty then ([], [])
  else
    match minMergedAt prs with
    | none => ([], [])
    | some mm =>
      let earliest_merge := mm - 60
      let repos := prRepos prs
      let loaded :=
        if time_from ≤ earliest_merge then
          (load_releases rematch repos earliest_merge time_to settings db,
           [LoadCall.mk earliest_merge time_to settings])
        else
          let releases_new := load_releases rematch repos time_from time_to settings db
          let consistent := consistentSettings settings releases_new
          let releases_old :=
            load_releases rematch repos earliest_merge time_from consistent db
          (releases_new ++ releases_old,
           [LoadCall.mk time_from time_to settings,
            LoadCall.mk earliest_merge time_from consistent])
      let missed := map_prs_to_releases_core prs loaded.1 history
      (missed,
       loaded.2.map StorageEffect.loadRel ++
       (if hasCache then [StorageEffect.cacheMultiGet] else []) ++
       [StorageEffect.mapQuery] ++
       (if hasCache then [StorageEffect.cacheSet] else []))

/-- The Metric record of the calculator framework: exists flag, value and
confidence bounds.  Numeric values are embedded as rationals; the field
named exists in the source is exists_ here (reserved word). -/
structure MetricData where
  exists_ : Bool
  value : Option ℚ
  confidence_min : Option ℚ
  confidence_max : Option ℚ
deriving Repr, DecidableEq

/-- Embedding of FlowRatioCalculator._value (pull_request_metrics.py:556-564):
when neither dependency metric exists the result does not exist; otherwise the
value is (opened + 1) / (closed + 1) with a missing operand treated as zero
(Python x or 0 on a number equals x.getD 0 in value). -/
def flowRatioValue (opened closed : MetricData) : MetricData :=
  if !closed.exists_ && !opened.exists_ then ⟨false, none, none, none⟩
  else ⟨true, some ((opened.value.getD 0 + 1) / (closed.value.getD 0 + 1)),
        none, none⟩

/-- The PR filter of _find_old_released_prs (release.py:648-662): merged before
the time boundary, in the repository, merge commit among the observed commits,
hidden IS FALSE, and the author/merger discrimination. -/
def findOldReleasedPrsFilter (repo : String) (time_boundary : Int)
    (observed_commits : List String) (authors mergers : List String)
    (pr : PRRow) : Bool :=
  (match pr.merged_at with
   | some m => m < time_boundary
   | none => false) &&
  pr.repository_full_name == repo &&
  (match pr.merge_commit_sha with
   | some s => observed_commits.contains s
   | none => false) &&
  !pr.hidden &&
  (if !authors.isEmpty && !mergers.isEmpty then
     (match pr.user_login with
      | some u => authors.contains u
      | none => false) ||
     (match pr.merged_by_login with
      | some u => mergers.contains u
      | none => false)
   else if !authors.isEmpty then
     match pr.user_login with
     | some u => authors.contains u
     | none => false
   else if !mergers.isEmpty then
     match pr.merged_by_login with
     | some u => mergers.contains u
     | none => false
   else true)

/-- The rows returned by the pull_request query of _find_old_released_prs
(release.py:665). -/
def find_old_released_prs_query (db : MetadataDB) (repo : String)
    (time_boundary : Int) (observed_commits : List String)
    (authors mergers : List String) : List PRRow :=
  db.prs.filter (findOldReleasedPrsFilter repo time_boundary observed_commits
    authors mergers)

/-- The PR filter of the fetch_prs query of _mine_contributors
(contributors.py:46-56): repository in repos, hidden IS FALSE, and activity
overlapping the window (created in window, or created before time_to and still
open, or closed in window, or updated in window). -/
def mineContributorsPrsFilter (repos : List String) (time_from time_to : Int)
    (pr : PRRow) : Bool :=
  repos.contains pr.repository_full_name &&
  !pr.hidden &&
  ((time_from ≤ pr.created_at && pr.created_at ≤ time_to) ||
   (pr.created_at < time_to && pr.closed_at.isNone) ||
   (match pr.closed_at with
    | some c => time_from ≤ c && c ≤ time_to
    | none => false) ||
   (time_from ≤ pr.updated_at && pr.updated_at ≤ time_to))

/-- The rows aggregated by the fetch_prs query of _mine_contributors. -/
def mine_contributors_prs_query (db : MetadataDB) (repos : List String)
    (time_from time_to : Int) : List PRRow :=
  db.prs.filter (mineContributorsPrsFilter repos time_from time_to)

/-- A base PR row for concrete witnesses; fields are overridden per scenario. -/
def basePR : PRRow :=
  { node_id := "PR0", repository_full_name := "o/r", number := 1,
    user_login := none, merged_by_login := none, created_at := 0, updated_at := 0,
    closed_at := none, merged_at := none, merge_commit_id := none,
    merge_commit_sha := none, base_ref := "main", head_ref := "feature",
    hidden := false }

/-- A base push-commit row for concrete witnesses. -/
def baseCommit : PushCommitRow :=
  { node_id := "C0", sha := "s0", repository_full_name := "o/r", url := none,
    author_login := none, committer_login := none, committer_name := none,
    committer_email := none, commit_date := "2020-01-01", committed_date := 0 }

/-- A base release row for concrete witnesses. -/
def baseRelease : ReleaseRow :=
  { id := "R0", author := some "dev", name := some "v1", published_at := 0,
    tag := some "v1", url := none, sha := "s0", commit_id := some "C0",
    repository_full_name := "o/r" }

/-- The empty Metadata Store. -/
def emptyDB : MetadataDB := ⟨[], [], [], [], [], []⟩

/-- Concrete input for the two-batch scenario: one PR merged before the
window. -/
def c1PR : PRRow := { basePR with node_id := "P1", merged_at := some (-100) }

/-- Concrete tag-matching settings for the two-batch scenario. -/
def c1Settings : List (String × ReleaseMatchSetting) :=
  [("github.com/o/r", ⟨".*", ".*", Match.tag⟩)]

/-- Concrete mapped PR for the clamp scenario. -/
def c2PR : PRRow :=
  { basePR with node_id := "P2", merged_at := some 40, merge_commit_sha := some "S2" }

/-- Concrete release for the clamp scenario, published before the merge. -/
def c2Rel : MatchedRelease := ⟨{ baseRelease with id := "R2", published_at := 10 }, Match.tag⟩

/-- Concrete release history for the clamp scenario. -/
def c2History : String → Option Nat := fun s => if s == "S2" then some 0 else none

/-- The mapped row produced by the clamp scenario. -/
def c2Row : MappedPR :=
  { pull_request_node_id := "P2", published_at := 40, author := some "dev",
    url := none, repository_full_name := "o/r", matched_by := Match.tag }

/-- Concrete tag settings for the tag-window scenarios. -/
def c3Settings : List (String × ReleaseMatchSetting) :=
  [("github.com/o/r", ⟨".*", ".*", Match.tag⟩)]

/-- A release published exactly at the upper window bound. -/
def c3Rel : ReleaseRow := { baseRelease with id := "R3", published_at := 100, tag := some "v3" }

/-- A release published inside the probe window of the tag-or-branch split. -/
def c4Rel : ReleaseRow := { baseRelease with id := "R4", published_at := 50 }

/-- A merge-point commit whose node id differs from its sha. -/
def c5Commit : PushCommitRow := { baseCommit with node_id := "MDQ6", sha := "f0e1" }

/-- Metadata Store holding only c5Commit. -/
def c5DB : MetadataDB := { emptyDB with commits := [c5Commit] }

/-- The pseudo-release fabricated from c5Commit. -/
def c5Row : MatchedRelease :=
  ⟨⟨"MDQ6_o/r", none, some "f0e1", 0, none, none, "f0e1", some "MDQ6", "o/r"⟩, Match.branch⟩

/-- Another merge-point commit with distinct node id and sha. -/
def c5cCommit : PushCommitRow := { baseCommit with node_id := "N1", sha := "s1" }

/-- Metadata Store holding only c5cCommit. -/
def c5cDB : MetadataDB := { emptyDB with commits := [c5cCommit] }

/-- A merge commit committed by the GitHub merge bot. -/
def c6wCommit : PushCommitRow :=
  { baseCommit with
    node_id := "N6", author_login := some "alice",
    committer_login := some "web-flow", committer_name := some "GitHub",
    committer_email := some "noreply@github.com" }

/-- Metadata Store holding only c6wCommit. -/
def c6wDB : MetadataDB := { emptyDB with commits := [c6wCommit] }

/-- A merge commit committed by a human, not the GitHub merge bot. -/
def c6cCommit : PushCommitRow :=
  { baseCommit with
    node_id := "N7", author_login := some "alice",
    committer_login := some "bob", committer_name := some "Bob",
    committer_email := some "bob@example.com" }

/-- Metadata Store holding only c6cCommit. -/
def c6cDB : MetadataDB := { emptyDB with commits := [c6cCommit] }

/-- A hidden pull request merged on the default branch inside the window. -/
def c8HiddenPR : PRRow :=
  { basePR with
    node_id := "P8", merged_at := some 50,
    merge_commit_id := some "MC1", hidden := true }

/-- Metadata Store holding only the hidden PR. -/
def c8DB : MetadataDB := { emptyDB with prs := [c8HiddenPR] }

/-- A visible merged pull request among the observed commits. -/
def c8wPR : PRRow :=
  { basePR with node_id := "P8w", merged_at := some 50, merge_commit_sha := some "S1" }

/-- Metadata Store holding only the visible PR. -/
def c8wDB : MetadataDB := { emptyDB with prs := [c8wPR] }

/-- Settings whose match kind is none of tag, branch, tag_or_branch. -/
def c9Settings : List (String × ReleaseMatchSetting) :=
  [("github.com/o/x", ⟨".*", ".*", (7 : Int)⟩)]

/-- Metadata Store with a release for the unknown-kind repository. -/
def c9DB : MetadataDB :=
  { emptyDB with releases := [{ baseRelease with repository_full_name := "o/x" }] }

lemma mem_insertBy {α : Type} {le : α → α → Bool} {x a : α} :
    ∀ {l : List α}, a ∈ insertBy le x l ↔ a = x ∨ a ∈ l := by
  intro l
  induction l with
  | nil => simp [insertBy]
  | cons y ys ih =>
    rw [insertBy]
    split
    · simp [List.mem_cons]
    · rw [List.mem_cons, ih, List.mem_cons]
      tauto

lemma mem_sortBy {α : Type} {le : α → α → Bool} {a : α} :
    ∀ {l : List α}, a ∈ sortBy le l ↔ a ∈ l := by
  intro l
  induction l with
  | nil => simp [sortBy]
  | cons x xs ih => rw [sortBy, mem_insertBy, ih, List.mem_cons]

lemma mem_of_mem_dedupFirst {r : ReleaseRow} :
    ∀ {l : List ReleaseRow} {seen : List (String × Option String)},
      r ∈ dedupFirst l seen → r ∈ l := by
  intro l
  induction l with
  | nil => intro seen h; cases h
  | cons x xs ih =>
    intro seen h
    unfold dedupFirst at h
    split at h
    · exact List.mem_cons_of_mem x (ih h)
    · rcases List.mem_cons.1 h with rfl | hx
      · exact List.mem_cons_self r xs
      · exact List.mem_cons_of_mem x (ih hx)

lemma mem_tagCandidates {repos : List String} {time_from time_to : Int}
    {dbReleases : List ReleaseRow} {r : ReleaseRow}
    (h : r ∈ tagCandidates repos time_from time_to dbReleases) :
    r ∈ dbReleases ∧ (time_from ≤ r.published_at ∧ r.published_at ≤ time_to) ∧
      r.repository_full_name ∈ repos ∧ r.commit_id.isSome = true := by
  have h1 := mem_of_mem_dedupFirst h
  rw [sortReleasesDesc, mem_sortBy, List.mem_filter] at h1
  obtain ⟨hmem, hcond⟩ := h1
  simp only [Bool.and_eq_true, decide_eq_true_eq, List.elem_iff] at hcond
  exact ⟨hmem, hcond.1.1, hcond.1.2, hcond.2⟩

lemma mem_match_releases_by_tag_iff {rematch : String → String → Bool}
    {repos : List String} {time_from time_to : Int}
    {settings : List (String × ReleaseMatchSetting)}
    {dbReleases : List ReleaseRow} {x : MatchedRelease} :
    x ∈ match_releases_by_tag rematch repos time_from time_to settings dbReleases ↔
      x.matched_by = Match.tag ∧
      x.rel ∈ tagCandidates repos time_from time_to dbReleases ∧
      x.rel.repository_full_name ∈ repos ∧
      (time_from ≤ x.rel.published_at ∧ x.rel.published_at ≤ time_to) ∧
      x.rel.commit_id.isSome = true ∧
      ∃ t, x.rel.tag = some t ∧
        rematch (anchorRegex (settingOf settings
          (githubPrefix ++ x.rel.repository_full_name)).tags) t = true := by
  constructor
  · intro hx
    rw [match_releases_by_tag, List.mem_map] at hx
    obtain ⟨r, hr, hxr⟩ := hx
    rw [List.mem_flatMap] at hr
    obtain ⟨repo, _hrepo, hrf⟩ := hr
    rw [List.mem_filter] at hrf
    obtain ⟨hcand, hcond⟩ := hrf
    simp only [Bool.and_eq_true, beq_iff_eq] at hcond
    have hc := mem_tagCandidates hcand
    subst hxr
    refine ⟨rfl, hcand, hc.2.2.1, hc.2.1, hc.2.2.2, ?_⟩
    rw [tagMatchesRow] at hcond
    cases htag : r.tag with
    | none => rw [htag] at hcond; exact absurd hcond.2 (by simp)
    | some t => rw [htag] at hcond; exact ⟨t, rfl, hcond.2⟩
  · rintro ⟨hmb, hcand, hrep, _hwin, _hcid, t, htag, hmatch⟩
    rw [match_releases_by_tag, List.mem_map]
    refine ⟨x.rel, ?_, ?_⟩
    · rw [List.mem_flatMap]
      refine ⟨x.rel.repository_full_name, hrep, ?_⟩
      rw [List.mem_filter]
      refine ⟨hcand, ?_⟩
      simp only [Bool.and_eq_true, beq_iff_eq]
      exact ⟨by simp, by rw [tagMatchesRow, htag]; exact hmatch⟩
    · cases x with
      | mk rel mb => simp only at hmb; rw [hmb]

lemma listMin_le {l : List Int} {a : Int} (h : a ∈ l) :
    ∃ m, listMin l = some m ∧ m ≤ a := by
  induction l with
  | nil => cases h
  | cons x xs ih =>
    rcases List.mem_cons.1 h with rfl | hx
    · cases hmin : listMin xs with
      | none => exact ⟨a, by simp [listMin, hmin], le_refl a⟩
      | some m => exact ⟨min a m, by simp [listMin, hmin], min_le_left a m⟩
    · obtain ⟨m, hm, hle⟩ := ih hx
      exact ⟨min x m, by simp [listMin, hm], le_trans (min_le_right x m) hle⟩

lemma lookup_consistentSettings {settings : List (String × ReleaseMatchSetting)}
    {releases_new : List MatchedRelease} {k : String} {s : ReleaseMatchSetting}
    (h : settings.lookup k = some s) :
    (consistentSettings settings releases_new).lookup k =
      some ⟨s.tags, s.branches,
        (matchedByOf releases_new (stripServicePrefix k)).getD s.matchKind⟩ := by
  induction settings with
  | nil => cases h
  | cons p ps ih =>
    rw [consistentSettings, List.map_cons]
    rw [List.lookup] at h ⊢
    cases hk : (k == p.1) with
    | true =>
      have hkp : k = p.1 := eq_of_beq hk
      rw [hk] at h
      have h2 : some p.2 = some s := h
      cases h2
      subst hkp
      rfl
    | false =>
      rw [hk] at h
      have h2 : List.lookup k ps = some s := h
      exact ih h2

lemma repo_of_mem_fetch_merge_commit_releases {db : MetadataDB} {repo : String}
    {merge_points : List String} {x : MatchedRelease}
    (h : x ∈ fetch_merge_commit_releases db repo merge_points) :
    x.rel.repository_full_name = repo ∧ x.matched_by = Match.branch := by
  rw [fetch_merge_commit_releases, List.mem_map] at h
  obtain ⟨c, _hc, hx⟩ := h
  subst hx
  exact ⟨rfl, rfl⟩

lemma repo_mem_of_mem_match_releases_by_branch {rematch : String → String → Bool}
    {repos : List String} {time_from time_to : Int}
    {settings : List (String × ReleaseMatchSetting)} {db : MetadataDB}
    {x : MatchedRelease}
    (h : x ∈ match_releases_by_branch rematch repos time_from time_to settings db) :
    x.rel.repository_full_name ∈ repos := by
  rw [match_releases_by_branch, List.mem_flatMap] at h
  obtain ⟨rm, hrm, hx⟩ := h
  have hrepo := (repo_of_mem_fetch_merge_commit_releases hx).1
  rw [List.mem_filterMap] at hrm
  obtain ⟨repo, hrepoKeys, hf⟩ := hrm
  have hrm1 : rm.1 = repo := by
    rw [repoMergePoints] at hf
    split at hf
    · cases hf
    · cases hf; rfl
  rw [mem_sortBy, List.mem_dedup, List.mem_map] at hrepoKeys
  obtain ⟨b, hb, hbrepo⟩ := hrepoKeys
  rw [extractBranches, List.mem_filter] at hb
  have hmem : b.repository_full_name ∈ repos := by
    simpa using hb.2
  rw [hrepo, hrm1, ← hbrepo]
  exact hmem

lemma repo_mem_of_mem_match_releases_by_tag_or_branch
    {rematch : String → String → Bool} {repos : List String}
    {time_from time_to : Int} {settings : List (String × ReleaseMatchSetting)}
    {db : MetadataDB} {x : MatchedRelease}
    (h : x ∈ match_releases_by_tag_or_branch rematch repos time_from time_to settings db) :
    x.rel.repository_full_name ∈ repos := by
  simp only [match_releases_by_tag_or_branch, List.mem_append] at h
  rcases h with h | h
  · split at h
    · cases h
    · have := (mem_match_releases_by_tag_iff.1 h).2.2.1
      rw [tagOrBranchPartition] at this
      simp only [probeTagRepos, List.mem_dedup, List.mem_map, List.mem_filter] at this
      obtain ⟨r, ⟨_hr, hcond⟩, hrepo⟩ := this
      simp only [Bool.and_eq_true, List.elem_iff] at hcond
      rw [← hrepo]
      exact hcond.1
  · split at h
    · cases h
    · have := repo_mem_of_mem_match_releases_by_branch h
      rw [tagOrBranchPartition] at this
      exact List.mem_of_mem_filter this

lemma kind_of_mem_load_releases {rematch : String → String → Bool}
    {repos : List String} {time_from time_to : Int}
    {settings : List (String × ReleaseMatchSetting)} {db : MetadataDB}
    {x : MatchedRelease}
    (h : x ∈ load_releases rematch repos time_from time_to settings db) :
    x.rel.repository_full_name ∈ repos ∧
      ((settingOf settings (githubPrefix ++ x.rel.repository_full_name)).matchKind
          = Match.tag ∨
       (settingOf settings (githubPrefix ++ x.rel.repository_full_name)).matchKind
          = Match.tag_or_branch ∨
       (settingOf settings (githubPrefix ++ x.rel.repository_full_name)).matchKind
          = Match.branch) := by
  rw [load_releases, List.mem_append, List.mem_append] at h
  rcases h with (h | h) | h
  · split at h
    · cases h
    · have := (mem_match_releases_by_tag_iff.1 h).2.2.1
      rw [List.mem_filter] at this
      exact ⟨this.1, Or.inl (by simpa using this.2)⟩
  · split at h
    · cases h
    · have := repo_mem_of_mem_match_releases_by_tag_or_branch h
      rw [List.mem_filter] at this
      exact ⟨this.1, Or.inr (Or.inl (by simpa using this.2))⟩
  · split at h
    · cases h
    · have := repo_mem_of_mem_match_releases_by_branch h
      rw [List.mem_filter] at this
      exact ⟨this.1, Or.inr (Or.inr (by simpa using this.2))⟩

/-- C10: map_prs_to_releases applied to an empty PR set returns the empty
mapping frame immediately, with an empty trace of storage accesses: no release
load, no Metadata or Precomputed Store query, no cache read or write. -/
theorem map_prs_to_releases_empty_prs (rematch : String → String → Bool)
    (hasCache : Bool) (time_from time_to : Int)
    (settings : List (String × ReleaseMatchSetting)) (db : MetadataDB)
    (history : String → Option Nat) :
    map_prs_to_releases rematch hasCache [] time_from time_to settings db history
      = ([], []) := rfl

/-- C7: when at least one of the opened and closed counter metrics exists, the
flow ratio exists and equals exactly (opened + 1) / (closed + 1) with a missing
operand treated as 0; when neither exists, the flow ratio metric does not
exist. -/
theorem flow_ratio_value_formula (opened closed : MetricData) :
    ((opened.exists_ || closed.exists_) = true →
      (flowRatioValue opened closed).exists_ = true ∧
      (flowRatioValue opened closed).value =
        some ((opened.value.getD 0 + 1) / (closed.value.getD 0 + 1))) ∧
    ((opened.exists_ || closed.exists_) = false →
      (flowRatioValue opened closed).exists_ = false ∧
      (flowRatioValue opened closed).value = none) := by
  constructor <;> intro h <;>
    cases ho : opened.exists_ <;> cases hc : closed.exists_ <;>
      rw [ho, hc] at h <;> simp_all [flowRatioValue]

/-- Witness for C7 at a concrete pair of metrics: opened exists with value 3,
closed does not exist. -/
theorem flow_ratio_value_formula_witness :
    (flowRatioValue ⟨true, some 3, none, none⟩ ⟨false, none, none, none⟩).exists_ = true ∧
    (flowRatioValue ⟨true, some 3, none, none⟩ ⟨false, none, none, none⟩).value =
      some (((some (3 : ℚ)).getD 0 + 1) / ((none : Option ℚ).getD 0 + 1)) :=
  (flow_ratio_value_formula ⟨true, some 3, none, none⟩ ⟨false, none, none, none⟩).1
    (by decide)

/-- C5 (amended): every branch-matched pseudo-release comes from a merge-point
commit of the repository and carries id = node_id ++ "_" ++ repo (the commit's
node id, not its sha), sha equal to the commit's sha, a null tag, published_at
equal to the commit's committed_date, and matched_by = branch. -/
theorem fetch_merge_commit_releases_fields (db : MetadataDB) (repo : String)
    (merge_points : List String) (x : MatchedRelease)
    (hx : x ∈ fetch_merge_commit_releases db repo merge_points) :
    ∃ c, c ∈ db.commits ∧ merge_points.contains c.node_id = true ∧
      x.rel.id = c.node_id ++ "_" ++ repo ∧ x.rel.sha = c.sha ∧
      x.rel.tag = none ∧ x.rel.published_at = c.committed_date ∧
      x.matched_by = Match.branch := by
  rw [fetch_merge_commit_releases, List.mem_map] at hx
  obtain ⟨c, hc, hxc⟩ := hx
  rw [mergePointCommits, mem_sortBy, List.mem_filter] at hc
  subst hxc
  exact ⟨c, hc.1, hc.2, rfl, rfl, rfl, rfl, rfl⟩

/-- Witness for C5 at the concrete commit c5Commit. -/
theorem fetch_merge_commit_releases_fields_witness :
    ∃ c, c ∈ c5DB.commits ∧ (["MDQ6"] : List String).contains c.node_id = true ∧
      c5Row.rel.id = c.node_id ++ "_" ++ "o/r" ∧ c5Row.rel.sha = c.sha ∧
      c5Row.rel.tag = none ∧ c5Row.rel.published_at = c.committed_date ∧
      c5Row.matched_by = Match.branch :=
  fetch_merge_commit_releases_fields c5DB "o/r" ["MDQ6"] c5Row (by decide)

/-- C5 counterexample: the claim states id = sha ++ "_" ++ repo, but the
fabricated id uses the commit's node id (release.py:279); for a commit whose
node id differs from its sha the two disagree. -/
theorem fetch_merge_commit_releases_id_counterexample :
    ∃ x, x ∈ fetch_merge_commit_releases c5cDB "o/r" ["N1"] ∧
      x.rel.id ≠ x.rel.sha ++ "_" ++ "o/r" :=
  ⟨⟨⟨"N1_o/r", none, some "s1", 0, none, none, "s1", some "N1", "o/r"⟩, Match.branch⟩,
    by decide, by decide⟩

/-- C6 (amended): every branch-matched pseudo-release takes its author from the
merge commit as committer_login, except that when the committer is the GitHub
merge bot (committer_name "GitHub", committer_email "noreply@github.com") it
falls back to author_login - the reverse fallback direction of the claim. -/
theorem fetch_merge_commit_releases_author (db : MetadataDB) (repo : String)
    (merge_points : List String) (x : MatchedRelease)
    (hx : x ∈ fetch_merge_commit_releases db repo merge_points) :
    ∃ c, c ∈ db.commits ∧ merge_points.contains c.node_id = true ∧
      x.rel.author = (if c.committer_name = some "GitHub" ∧
          c.committer_email = some "noreply@github.com"
        then c.author_login else c.committer_login) := by
  rw [fetch_merge_commit_releases, List.mem_map] at hx
  obtain ⟨c, hc, hxc⟩ := hx
  rw [mergePointCommits, mem_sortBy, List.mem_filter] at hc
  subst hxc
  refine ⟨c, hc.1, hc.2, ?_⟩
  show mergeCommitAuthor c = _
  rw [mergeCommitAuthor]
  by_cases hbot : c.committer_name = some "GitHub" ∧
      c.committer_email = some "noreply@github.com"
  · rw [if_pos hbot]
    simp [hbot.1, hbot.2]
  · rw [if_neg hbot]
    have : (c.committer_name == some "GitHub" &&
        c.committer_email == some "noreply@github.com") = false := by
      rw [Bool.and_eq_false_iff]
      by_cases h1 : c.committer_name = some "GitHub"
      · right
        have h2 : ¬ c.committer_email = some "noreply@github.com" := fun h2 =>
          hbot ⟨h1, h2⟩
        simpa using h2
      · left
        simpa using h1
    rw [this]
    simp

/-- Witness for C6 at the concrete bot-committed commit c6wCommit: the author
falls back to author_login. -/
theorem fetch_merge_commit_releases_author_witness :
    ∃ c, c ∈ c6wDB.commits ∧ (["N6"] : List String).contains c.node_id = true ∧
      (⟨⟨"N6_o/r", some "alice", some "s0", 0, none, none, "s0", some "N6", "o/r"⟩,
        Match.branch⟩ : MatchedRelease).rel.author =
        (if c.committer_name = some "GitHub" ∧
            c.committer_email = some "noreply@github.com"
          then c.author_login else c.committer_login) :=
  fetch_merge_commit_releases_author c6wDB "o/r" ["N6"]
    ⟨⟨"N6_o/r", some "alice", some "s0", 0, none, none, "s0", some "N6", "o/r"⟩,
      Match.branch⟩ (by decide)

/-- C6 counterexample: for a commit whose committer is not the GitHub bot the
pseudo-release author is the committer_login, not the author_login required by
the claim. -/
theorem fetch_merge_commit_releases_author_counterexample :
    c6cCommit.committer_name ≠ some "GitHub" ∧
    ∃ x, x ∈ fetch_merge_commit_releases c6cDB "o/r" ["N7"] ∧
      x.rel.commit_id = some c6cCommit.node_id ∧
      x.rel.author ≠ c6cCommit.author_login :=
  ⟨by decide,
    ⟨⟨⟨"N7_o/r", some "bob", some "s0", 0, none, none, "s0", some "N7", "o/r"⟩,
      Match.branch⟩, by decide, by decide, by decide⟩⟩

/-- C8 (amended): the pull_request queries of _find_old_released_prs and of the
contributors miner exclude hidden rows (hidden IS FALSE), but the pull_request
query of _fetch_merge_points applies no hidden filter: a hidden PR merged on
the matched branch contributes its merge commit to the merge points. -/
theorem hidden_pr_exclusion :
    (∀ db repo time_boundary observed_commits authors mergers pr,
      pr ∈ find_old_released_prs_query db repo time_boundary observed_commits
        authors mergers → pr.hidden = false) ∧
    (∀ db repos time_from time_to pr,
      pr ∈ mine_contributors_prs_query db repos time_from time_to →
        pr.hidden = false) ∧
    (∃ pr, pr ∈ c8DB.prs ∧ pr.hidden = true ∧
      ∃ mc, pr.merge_commit_id = some mc ∧
        mc ∈ fetch_merge_points c8DB "o/r" "HEAD" "main" 0 100) := by
  refine ⟨?_, ?_, ?_⟩
  · intro db repo time_boundary observed_commits authors mergers pr h
    rw [find_old_released_prs_query, List.mem_filter] at h
    have h2 := h.2
    rw [findOldReleasedPrsFilter] at h2
    simp only [Bool.and_eq_true] at h2
    have hd := h2.1.2
    simpa using hd
  · intro db repos time_from time_to pr h
    rw [mine_contributors_prs_query, List.mem_filter] at h
    have h2 := h.2
    rw [mineContributorsPrsFilter] at h2
    simp only [Bool.and_eq_true] at h2
    have hd := h2.1.2
    simpa using hd
  · exact ⟨c8HiddenPR, by decide, by decide, "MC1", by decide, by decide⟩

/-- Witness for C8 at a concrete visible PR passing the old-released filter. -/
theorem hidden_pr_exclusion_witness :
    c8wPR ∈ find_old_released_prs_query c8wDB "o/r" 100 ["S1"] [] [] ∧
    c8wPR.hidden = false :=
  ⟨by decide, hidden_pr_exclusion.1 c8wDB "o/r" 100 ["S1"] [] [] c8wPR (by decide)⟩

/-- C8 counterexample: the claim that no pipeline query over pull_request ever
returns a hidden row fails at _fetch_merge_points, which returns the merge
commit of a hidden PR. -/
theorem hidden_pr_in_merge_points_counterexample :
    c8HiddenPR.hidden = true ∧ c8HiddenPR ∈ c8DB.prs ∧
    c8HiddenPR.merge_commit_id = some "MC1" ∧
    fetch_merge_points c8DB "o/r" "HEAD" "main" 0 100 = ["MC1"] := by
  refine ⟨by decide, by decide, by decide, by decide⟩

/-- C9: load_releases silently skips every repository whose configured match
kind is none of tag, branch, tag_or_branch: its rows never appear in the
result, and when no repository is assigned to any of the three kinds the
returned release frame is empty. -/
theorem load_releases_ignores_unknown_kind (rematch : String → String → Bool)
    (repos : List String) (time_from time_to : Int)
    (settings : List (String × ReleaseMatchSetting)) (db : MetadataDB)
    (repo : String) (h1 : repo ∈ repos)
    (h2 : (settingOf settings (githubPrefix ++ repo)).matchKind ≠ Match.tag)
    (h3 : (settingOf settings (githubPrefix ++ repo)).matchKind ≠ Match.tag_or_branch)
    (h4 : (settingOf settings (githubPrefix ++ repo)).matchKind ≠ Match.branch) :
    (∀ x, x ∈ load_releases rematch repos time_from time_to settings db →
      x.rel.repository_full_name ≠ repo) ∧
    ((∀ rp, rp ∈ repos →
        (settingOf settings (githubPrefix ++ rp)).matchKind ≠ Match.tag ∧
        (settingOf settings (githubPrefix ++ rp)).matchKind ≠ Match.tag_or_branch ∧
        (settingOf settings (githubPrefix ++ rp)).matchKind ≠ Match.branch) →
      load_releases rematch repos time_from time_to settings db = []) := by
  constructor
  · intro x hx heq
    have hk := kind_of_mem_load_releases hx
    rw [heq] at hk
    rcases hk.2 with hcase | hcase | hcase
    · exact h2 hcase
    · exact h3 hcase
    · exact h4 hcase
  · intro hall
    have e1 : repos.filter (fun rp =>
        (settingOf settings (githubPrefix ++ rp)).matchKind == Match.tag) = [] := by
      rw [List.filter_eq_nil_iff]
      intro rp hrp
      simpa using (hall rp hrp).1
    have e2 : repos.filter (fun rp =>
        (settingOf settings (githubPrefix ++ rp)).matchKind == Match.tag_or_branch) = [] := by
      rw [List.filter_eq_nil_iff]
      intro rp hrp
      simpa using (hall rp hrp).2.1
    have e3 : repos.filter (fun rp =>
        (settingOf settings (githubPrefix ++ rp)).matchKind == Match.branch) = [] := by
      rw [List.filter_eq_nil_iff]
      intro rp hrp
      simpa using (hall rp hrp).2.2
    simp only [load_releases, e1, e2, e3]
    simp

/-- Witness for C9 at a concrete repository whose match kind is 7. -/
theorem load_releases_ignores_unknown_kind_witness :
    (∀ x, x ∈ load_releases (fun _ _ => true) ["o/x"] 0 100 c9Settings c9DB →
      x.rel.repository_full_name ≠ "o/x") ∧
    ((∀ rp, rp ∈ (["o/x"] : List String) →
        (settingOf c9Settings (githubPrefix ++ rp)).matchKind ≠ Match.tag ∧
        (settingOf c9Settings (githubPrefix ++ rp)).matchKind ≠ Match.tag_or_branch ∧
        (settingOf c9Settings (githubPrefix ++ rp)).matchKind ≠ Match.branch) →
      load_releases (fun _ _ => true) ["o/x"] 0 100 c9Settings c9DB = []) :=
  load_releases_ignores_unknown_kind (fun _ _ => true) ["o/x"] 0 100 c9Settings c9DB
    "o/x" (by decide) (by decide) (by decide) (by decide)

/-- C4: for every repository under a tag_or_branch rule, the matcher probes the
Release table over the window widened by four weeks on each side (inclusive);
a repository with any release there is handed to the tag matcher, otherwise to
the branch matcher, and it lands in exactly one of the two partitions. -/
theorem tag_or_branch_partition_exclusive (repos : List String)
    (time_from time_to : Int) (dbReleases : List ReleaseRow) (repo : String)
    (h : repo ∈ repos) :
    (repo ∈ (tagOrBranchPartition repos time_from time_to dbReleases).1 ↔
      ∃ r, r ∈ dbReleases ∧ r.repository_full_name = repo ∧
        time_from - tag_by_branch_probe_lookaround ≤ r.published_at ∧
        r.published_at ≤ time_to + tag_by_branch_probe_lookaround) ∧
    (repo ∈ (tagOrBranchPartition repos time_from time_to dbReleases).2 ↔
      ¬ ∃ r, r ∈ dbReleases ∧ r.repository_full_name = repo ∧
        time_from - tag_by_branch_probe_lookaround ≤ r.published_at ∧
        r.published_at ≤ time_to + tag_by_branch_probe_lookaround) := by
  have hp : repo ∈ probeTagRepos repos time_from time_to dbReleases ↔
      ∃ r, r ∈ dbReleases ∧ r.repository_full_name = repo ∧
        time_from - tag_by_branch_probe_lookaround ≤ r.published_at ∧
        r.published_at ≤ time_to + tag_by_branch_probe_lookaround := by
    rw [probeTagRepos, List.mem_dedup, List.mem_map]
    constructor
    · rintro ⟨r, hr, hrepo⟩
      rw [List.mem_filter] at hr
      obtain ⟨hmem, hcond⟩ := hr
      simp only [Bool.and_eq_true, List.elem_iff, decide_eq_true_eq] at hcond
      exact ⟨r, hmem, hrepo, hcond.2.1, hcond.2.2⟩
    · rintro ⟨r, hmem, hrepo, hlo, hhi⟩
      refine ⟨r, ?_, hrepo⟩
      rw [List.mem_filter]
      refine ⟨hmem, ?_⟩
      simp only [Bool.and_eq_true, List.elem_iff, decide_eq_true_eq]
      exact ⟨hrepo ▸ h, hlo, hhi⟩
  constructor
  · exact hp
  · rw [tagOrBranchPartition]
    rw [List.mem_filter]
    constructor
    · rintro ⟨_, hnc⟩ hex
      rw [Bool.not_eq_eq_eq_not, Bool.not_true] at hnc
      have : repo ∈ probeTagRepos repos time_from time_to dbReleases := hp.2 hex
      rw [← List.elem_iff] at this
      have hnc2 : List.elem repo (probeTagRepos repos time_from time_to dbReleases)
          = false := hnc
      rw [this] at hnc2
      simp at hnc2
    · intro hnex
      refine ⟨h, ?_⟩
      have : repo ∉ probeTagRepos repos time_from time_to dbReleases :=
        fun hmem => hnex (hp.1 hmem)
      simpa using this

/-- Witness for C4 at a concrete repository holding one release inside the
probe window. -/
theorem tag_or_branch_partition_exclusive_witness :
    ("o/r" ∈ (tagOrBranchPartition ["o/r"] 0 100 [c4Rel]).1 ↔
      ∃ r, r ∈ [c4Rel] ∧ r.repository_full_name = "o/r" ∧
        0 - tag_by_branch_probe_lookaround ≤ r.published_at ∧
        r.published_at ≤ 100 + tag_by_branch_probe_lookaround) ∧
    ("o/r" ∈ (tagOrBranchPartition ["o/r"] 0 100 [c4Rel]).2 ↔
      ¬ ∃ r, r ∈ [c4Rel] ∧ r.repository_full_name = "o/r" ∧
        0 - tag_by_branch_probe_lookaround ≤ r.published_at ∧
        r.published_at ≤ 100 + tag_by_branch_probe_lookaround) :=
  tag_or_branch_partition_exclusive ["o/r"] 0 100 [c4Rel] "o/r" (by decide)

/-- C3 (amended): a row of the tag matcher's result is exactly a candidate
release - published_at BETWEEN t0 AND t1 (both bounds inclusive, the SQL
BETWEEN of the source, where the claim said the window is right-open), with
non-null commit_id, in one of the requested repositories, first occurrence per
(repository, tag) after ordering newest first - whose tag matches the
per-repository regex anchored at the end, marked matched by tag. -/
theorem match_releases_by_tag_characterization (rematch : String → String → Bool)
    (repos : List String) (time_from time_to : Int)
    (settings : List (String × ReleaseMatchSetting))
    (dbReleases : List ReleaseRow) (x : MatchedRelease) :
    x ∈ match_releases_by_tag rematch repos time_from time_to settings dbReleases ↔
      x.matched_by = Match.tag ∧
      x.rel ∈ tagCandidates repos time_from time_to dbReleases ∧
      x.rel.repository_full_name ∈ repos ∧
      (time_from ≤ x.rel.published_at ∧ x.rel.published_at ≤ time_to) ∧
      x.rel.commit_id.isSome = true ∧
      ∃ t, x.rel.tag = some t ∧
        rematch (anchorRegex (settingOf settings
          (githubPrefix ++ x.rel.repository_full_name)).tags) t = true :=
  mem_match_releases_by_tag_iff

/-- C3 counterexample: with the right-open window of the claim a release
published exactly at t1 = 100 could not be returned, yet the matcher returns
it: the SQL BETWEEN of the source includes the upper bound. -/
theorem match_releases_by_tag_upper_bound_counterexample :
    (⟨c3Rel, Match.tag⟩ : MatchedRelease) ∈
      match_releases_by_tag (fun _ _ => true) ["o/r"] 0 100 c3Settings [c3Rel] ∧
    ¬ (c3Rel.published_at < 100) :=
  ⟨by decide, by decide⟩

/-- C2: every row of the PR-to-release mapping reports a released_at equal to
max of the matched release's published_at and the PR's merged_at; consequently
the reported release timestamp is never earlier than the PR's merged_at. -/
theorem map_prs_to_releases_core_clamps (prs : List PRRow)
    (releases : List MatchedRelease) (history : String → Option Nat)
    (row : MappedPR) (pr : PRRow) (m : Int)
    (hrow : row ∈ map_prs_to_releases_core prs releases history)
    (hfind : prs.find? (fun q => q.node_id == row.pull_request_node_id) = some pr)
    (hm : pr.merged_at = some m) :
    (∃ r, r ∈ releases ∧ row.published_at = max r.rel.published_at m) ∧
    m ≤ row.published_at := by
  rw [map_prs_to_releases_core, clampReleasedAt, List.mem_map] at hrow
  obtain ⟨raw, hraw, hclamp⟩ := hrow
  rw [mapPrsToReleasesRaw, List.mem_filterMap] at hraw
  obtain ⟨pr0, _hpr0, hf⟩ := hraw
  cases hsha : pr0.merge_commit_sha with
  | none => simp only [hsha] at hf; exact absurd hf (by simp)
  | some sha =>
    simp only [hsha] at hf
    cases hhist : history sha with
    | none => simp only [hhist] at hf; exact absurd hf (by simp)
    | some ri =>
      simp only [hhist] at hf
      cases hget : releases[ri]? with
      | none => simp only [hget] at hf; exact absurd hf (by simp)
      | some r =>
        simp only [hget] at hf
        have heq := (Option.some.inj hf).symm
        have hpub : raw.published_at = r.rel.published_at := by rw [heq]
        replace hclamp :
            (match (prs.find? fun q =>
                q.node_id == raw.pull_request_node_id).bind (fun x => x.merged_at) with
             | none => raw
             | some mm => { raw with published_at := max raw.published_at mm })
              = row := hclamp
        have hrowid : row.pull_request_node_id = raw.pull_request_node_id := by
          cases hE : (prs.find? fun q =>
              q.node_id == raw.pull_request_node_id).bind (fun x => x.merged_at) with
          | none => rw [hE] at hclamp; rw [← hclamp]
          | some mm => rw [hE] at hclamp; rw [← hclamp]
        rw [hrowid] at hfind
        have hbind : (prs.find? fun q =>
            q.node_id == raw.pull_request_node_id).bind (fun x => x.merged_at)
              = some m := by
          rw [hfind]
          simpa using hm
        rw [hbind] at hclamp
        have hrowpub : row.published_at = max raw.published_at m := by
          rw [← hclamp]
        refine ⟨⟨r, List.getElem?_mem hget, by rw [hrowpub, hpub]⟩, ?_⟩
        rw [hrowpub]
        exact le_max_right raw.published_at m

/-- Witness for C2 at a concrete mapping: the release is published at 10, the
PR merged at 40, and the reported released_at is 40. -/
theorem map_prs_to_releases_core_clamps_witness :
    (∃ r, r ∈ [c2Rel] ∧ c2Row.published_at = max r.rel.published_at 40) ∧
    (40 : Int) ≤ c2Row.published_at :=
  map_prs_to_releases_core_clamps [c2PR] [c2Rel] c2History c2Row c2PR 40
    (by decide) (by decide) (by decide)

/-- C1: when the PR set contains a PR merged earlier than time_from, the
releases are loaded in two batches: a new load over (time_from, time_to) with
the caller's settings and an old load over (earliest_merge, time_from) - with
earliest_merge the minimal merged_at minus one minute - whose settings fix, for
each repository, the match kind to the matched_by that won for it in the new
load, falling back to the configured kind for repositories without a release
in the new load. -/
theorem map_prs_to_releases_two_batches (rematch : String → String → Bool)
    (hasCache : Bool) (prs : List PRRow) (time_from time_to : Int)
    (settings : List (String × ReleaseMatchSetting)) (db : MetadataDB)
    (history : String → Option Nat) (p : PRRow) (m : Int)
    (hp : p ∈ prs) (hm : p.merged_at = some m) (hlt : m < time_from) :
    ∃ mm, minMergedAt prs = some mm ∧ mm ≤ m ∧
      loadsOf (map_prs_to_releases rematch hasCache prs time_from time_to settings
          db history).2 =
        [⟨time_from, time_to, settings⟩,
         ⟨mm - 60, time_from,
          consistentSettings settings
            (load_releases rematch (prRepos prs) time_from time_to settings db)⟩] ∧
      ∀ k s, settings.lookup k = some s →
        (consistentSettings settings
            (load_releases rematch (prRepos prs) time_from time_to settings db)).lookup
            k =
          some ⟨s.tags, s.branches,
            (matchedByOf
              (load_releases rematch (prRepos prs) time_from time_to settings db)
              (stripServicePrefix k)).getD s.matchKind⟩ := by
  have hmem : m ∈ prs.filterMap (fun pr => pr.merged_at) :=
    List.mem_filterMap.2 ⟨p, hp, hm⟩
  obtain ⟨mm, hmm, hle⟩ := listMin_le hmem
  refine ⟨mm, hmm, hle, ?_, fun k s hks => lookup_consistentSettings hks⟩
  have hne : prs.isEmpty = false := by
    cases prs with
    | nil => cases hp
    | cons a l => rfl
  have hif : ¬ (time_from ≤ mm - 60) := by omega
  have hmm2 : minMergedAt prs = some mm := hmm
  simp only [map_prs_to_releases, hne, Bool.false_eq_true, if_false, hmm2]
  rw [if_neg hif]
  cases hasCache <;> simp [loadsOf]

/-- Witness for C1 at a concrete PR merged one hundred seconds before the
window. -/
theorem map_prs_to_releases_two_batches_witness :
    ∃ mm, minMergedAt [c1PR] = some mm ∧ mm ≤ -100 ∧
      loadsOf (map_prs_to_releases (fun _ _ => false) false [c1PR] 0 100 c1Settings
          emptyDB (fun _ => none)).2 =
        [⟨0, 100, c1Settings⟩,
         ⟨mm - 60, 0,
          consistentSettings c1Settings
            (load_releases (fun _ _ => false) (prRepos [c1PR]) 0 100 c1Settings
              emptyDB)⟩] ∧
      ∀ k s, c1Settings.lookup k = some s →
        (consistentSettings c1Settings
            (load_releases (fun _ _ => false) (prRepos [c1PR]) 0 100 c1Settings
              emptyDB)).lookup k =
          some ⟨s.tags, s.branches,
            (matchedByOf
              (load_releases (fun _ _ => false) (prRepos [c1PR]) 0 100 c1Settings
                emptyDB)
              (stripServicePrefix k)).getD s.matchKind⟩ :=
  map_prs_to_releases_two_batches (fun _ _ => false) false [c1PR] 0 100 c1Settings
    emptyDB (fun _ => none) c1PR (-100) (by decide) (by decide) (by decide)
